import Mathlib

/-!
Shallow embedding of the ore-cli mining module (`src/mine.rs`) and proofs of
the specification's testable properties about it.

Machine integers are modelled as `Int` (for Rust `i64`, with explicit
saturation clamps) and `Nat` (for Rust `u64`/`u32`, with explicit `% 2^64`
where wraparound matters).  Fallible operations return `Option`.
-/

namespace OreMine

/-- Numeric bound of a signed 64-bit integer: the least value. -/
def i64Min : Int := -(2 ^ 63)

/-- Numeric bound of a signed 64-bit integer: the greatest value. -/
def i64Max : Int := 2 ^ 63 - 1

/-- Greatest value of an unsigned 64-bit integer (`u64::MAX`). -/
def u64Max : Nat := 2 ^ 64 - 1

/-- Clamp an unbounded integer into the `i64` range, as Rust's saturating
arithmetic does. -/
def satI64 (x : Int) : Int := max i64Min (min i64Max x)

/-- Rust `i64::saturating_add`. -/
def satAdd (a b : Int) : Int := satI64 (a + b)

/-- Rust `i64::saturating_sub`. -/
def satSub (a b : Int) : Int := satI64 (a - b)

/-- Rust `u64 as i64`: a wrapping (two's-complement) conversion. -/
def u64ToI64 (x : Nat) : Int := ((x : Int) % 2 ^ 64 + 2 ^ 63) % 2 ^ 64 - 2 ^ 63

/-- Embedding of `Miner::get_cutoff` (`src/mine.rs:277-285`):
`proof.last_hash_at.saturating_add(60).saturating_sub(buffer_time as i64)
.saturating_sub(clock.unix_timestamp).max(0) as u64`. -/
def get_cutoff (last_hash_at : Int) (buffer_time : Nat) (unix_timestamp : Int) : Nat :=
  (max (satSub (satSub (satAdd last_hash_at 60) (u64ToI64 buffer_time)) unix_timestamp) 0).toNat

/-- Embedding of `Miner::should_reset` (`src/mine.rs:268-275`):
`config.last_reset_at.saturating_add(EPOCH_DURATION).saturating_sub(5)
.le(&clock.unix_timestamp)`.  `EPOCH_DURATION` comes from the external
`ore_api` crate, so it is kept as a parameter. -/
def should_reset (last_reset_at epochDuration unix_timestamp : Int) : Bool :=
  decide (satSub (satAdd last_reset_at epochDuration) 5 ≤ unix_timestamp)

/-- Observable shape of the instruction-building step of `Miner::mine`
(`src/mine.rs:75-80`): whether the reset instruction was pushed, and the
declared compute budget. -/
structure RoundActions where
  resetIncluded : Bool
  computeBudget : Nat
  deriving DecidableEq, Repr

/-- Embedding of `src/mine.rs:75-80`: `compute_budget` starts at `500_000`;
when `should_reset && gen_range(0..100) == 0`, the reset instruction is
pushed and the budget is raised by `100_000`.  The random draw is a
parameter `draw` (the sampled value of `gen_range(0..100)`). -/
def buildActions (resetCond : Bool) (draw : Nat) : RoundActions :=
  let cond := resetCond && draw == 0
  { resetIncluded := cond
    computeBudget := 500000 + if cond then 100000 else 0 }

/-- Model of `drillx::Hash`: `d` abstracts the digest field `d`, `h` the
field `h`.  `Hash::default()` is the all-zero hash, modelled as `⟨0, 0⟩`. -/
structure Hash where
  d : Nat
  h : Nat
  deriving DecidableEq, Repr

/-- Model of `Hash::default()`. -/
def hashDefault : Hash := ⟨0, 0⟩

/-- Model of `drillx::Solution::new(best_hash.d, best_nonce.to_le_bytes())`:
the digest part and the winning nonce. -/
structure Solution where
  d : Nat
  n : Nat
  deriving DecidableEq, Repr

/-- Outcome of one call of the external solver
`drillx::hash_with_memory(&mut memory, &proof.challenge, &nonce.to_le_bytes())`:
either a hash together with its derived difficulty (`hx.difficulty()`), or a
failure.  The solver is a black box, so each attempt's outcome is an input of
the model. -/
inductive HashAttempt where
  | ok (hx : Hash) (difficulty : Nat)
  | err
  deriving DecidableEq, Repr

/-- Environment of one iteration of a worker's loop (`src/mine.rs:157-218`):
the solver outcome for the current nonce, the value the worker reads from
`global_best_difficulty` inside the improvement branch (line 169), the value
it reads at the stride check (line 181), and `timer.elapsed().as_secs()`
(line 186).  These are worker-observed inputs, fixed per iteration. -/
structure LoopEnv where
  attempt : HashAttempt
  globalAtUpdate : Nat
  globalAtCheck : Nat
  elapsed : Nat
  deriving DecidableEq, Repr

/-- Local state of one worker thread (`src/mine.rs:153-156`): the current
nonce and the local best triple. -/
structure WorkerState where
  nonce : Nat
  bestNonce : Nat
  bestDifficulty : Nat
  bestHash : Hash
  deriving DecidableEq, Repr

/-- The improvement branch of the worker loop body (`src/mine.rs:158-173`):
a failed solver call is skipped (`if let Ok`); a successful one updates the
local best when its difficulty strictly improves it, and yields the value
stored to `global_best_difficulty` (line 170) when it also strictly exceeds
the value read from it (line 169). -/
def applyAttempt (s : WorkerState) (env : LoopEnv) : WorkerState × Option Nat :=
  match env.attempt with
  | .ok hx difficulty =>
    if difficulty > s.bestDifficulty then
      ({ s with bestNonce := s.nonce, bestDifficulty := difficulty, bestHash := hx },
        if difficulty > env.globalAtUpdate then some difficulty else none)
    else (s, none)
  | .err => (s, none)

/-- One iteration of the worker loop body (`src/mine.rs:157-218`).  Returns
the next state, the value stored to `global_best_difficulty` (if any), and
whether the loop breaks.  The break happens only at a stride check
(`nonce % 100 == 0`) when `timer.elapsed() >= cutoff_time` and the global
best has reached `min_difficulty` (lines 179-214); otherwise the nonce
advances by 1 (line 217, wrapping `u64` arithmetic). -/
def workerStep (cutoff_time min_difficulty : Nat) (s : WorkerState) (env : LoopEnv) :
    WorkerState × Option Nat × Bool :=
  if (applyAttempt s env).1.nonce % 100 == 0 && decide (cutoff_time ≤ env.elapsed)
      && decide (min_difficulty ≤ env.globalAtCheck) then
    ((applyAttempt s env).1, (applyAttempt s env).2, true)
  else
    ({ (applyAttempt s env).1 with nonce := ((applyAttempt s env).1.nonce + 1) % 2 ^ 64 },
      (applyAttempt s env).2, false)

/-- Run a worker's loop over a finite trace of iteration environments.
Returns the final local state and whether the loop has broken; `false` means
the trace was exhausted with the loop still running. -/
def workerRun (cutoff_time min_difficulty : Nat) :
    WorkerState → List LoopEnv → WorkerState × Bool
  | s, [] => (s, false)
  | s, env :: rest =>
    let r := workerStep cutoff_time min_difficulty s env
    if r.2.2 then (r.1, true) else workerRun cutoff_time min_difficulty r.1 rest

/-- Starting nonce of worker `id` (`src/mine.rs:153`):
`u64::MAX.saturating_div(cores).saturating_mul(i.id as u64)`.  For unsigned
division the only saturation point is the multiply, modelled by the clamp at
`u64Max`.  (`cores = 0` never reaches this line: such workers return at the
guard of line 144.) -/
def startNonce (cores id : Nat) : Nat :=
  min (u64Max / cores * id) u64Max

/-- Initial worker state (`src/mine.rs:153-156`). -/
def initWorkerState (cores id : Nat) : WorkerState :=
  { nonce := startNonce cores id
    bestNonce := startNonce cores id
    bestDifficulty := 0
    bestHash := hashDefault }

/-- The job of the thread pinned to core `id` (`src/mine.rs:142-222`): cores
with `id ≥ cores` return the zero candidate `(0, 0, Hash::default())`
immediately (lines 144-146); the rest run the search loop.  `none` means the
loop did not break within the given trace (the thread is still running). -/
def workerJob (cores cutoff_time min_difficulty : Nat) (id : Nat) (envs : List LoopEnv) :
    Option (Nat × Nat × Hash) :=
  if cores ≤ id then some (0, 0, hashDefault)
  else if (workerRun cutoff_time min_difficulty (initWorkerState cores id) envs).2 then
    some ((workerRun cutoff_time min_difficulty (initWorkerState cores id) envs).1.bestNonce,
      (workerRun cutoff_time min_difficulty (initWorkerState cores id) envs).1.bestDifficulty,
      (workerRun cutoff_time min_difficulty (initWorkerState cores id) envs).1.bestHash)
  else none

/-- The post-join reduction of `find_hash_par` (`src/mine.rs:227-239`): fold
the per-worker `(nonce, difficulty, hash)` triples, keeping a candidate only
when its difficulty strictly exceeds the current best, starting from
`(0, 0, Hash::default())`. -/
def joinReduce (results : List (Nat × Nat × Hash)) : Nat × Nat × Hash :=
  results.foldl (fun acc r => if r.2.1 > acc.2.1 then r else acc) (0, 0, hashDefault)

/-- Embedding of `Miner::find_hash_par` (`src/mine.rs:118-255`).  `coreIds`
is the list of physical core ids from `core_affinity::get_core_ids()`;
`envs id` is the iteration-environment trace of the worker on core `id`.
The engine joins every worker and reduces; it returns `none` exactly when
some active worker's loop has not terminated within its trace. -/
def find_hash_par (coreIds : List Nat) (cores cutoff_time min_difficulty : Nat)
    (envs : Nat → List LoopEnv) : Option Solution :=
  if (coreIds.map fun id => workerJob cores cutoff_time min_difficulty id (envs id)).all
      Option.isSome then
    some ⟨(joinReduce ((coreIds.map fun id =>
        workerJob cores cutoff_time min_difficulty id (envs id)).filterMap
          (fun r => r))).2.2.d,
      (joinReduce ((coreIds.map fun id =>
        workerJob cores cutoff_time min_difficulty id (envs id)).filterMap
          (fun r => r))).1⟩
  else
    none

/-- Shared state of the publication protocol for `global_best_difficulty`
(`src/mine.rs:169-171`): the value of the atomic cell, plus, per thread, the
value it read at its last `load` (the evaluation of the comparison
`difficulty > global_best_difficulty.load(..)`), if any. -/
structure PubState where
  global : Nat
  loaded : Nat → Option Nat

/-- Initial publication state: `AtomicU32::new(0)` (`src/mine.rs:126`), no
thread has loaded yet. -/
def pubInit : PubState := ⟨0, fun _ => none⟩

/-- An atomic event of the publication protocol.  The source performs the
`load` (line 169) and the `store` (line 170) as two separate relaxed atomic
operations, so an interleaving may place other threads' events between a
thread's `load` and its `store`. -/
inductive PubEvent where
  | load (tid : Nat)
  | store (tid : Nat)
  deriving DecidableEq, Repr

/-- Semantics of one publication event for threads whose candidate
difficulty is `d tid`: `load` records the current global value; `store`
writes `d tid` if it strictly exceeds the value that thread loaded (the
condition of `src/mine.rs:169`), and does nothing otherwise. -/
def pubStep (d : Nat → Nat) (s : PubState) : PubEvent → PubState
  | .load tid => { s with loaded := fun t => if t = tid then some s.global else s.loaded t }
  | .store tid =>
    match s.loaded tid with
    | some v => if d tid > v then { s with global := d tid } else s
    | none => s

/-- Value of `global_best_difficulty` after the first `n` events of an
interleaving `trace`. -/
def globalAfter (d : Nat → Nat) (trace : List PubEvent) (n : Nat) : Nat :=
  ((trace.take n).foldl (pubStep d) pubInit).global

/-- Monotonicity of the shared best over a whole interleaving: any two
sample points `i ≤ j` within the trace observe non-decreasing values. -/
def monotoneGlobal (d : Nat → Nat) (trace : List PubEvent) : Prop :=
  ∀ i ≤ trace.length, ∀ j ≤ trace.length, i ≤ j → globalAfter d trace i ≤ globalAfter d trace j

instance (d : Nat → Nat) (trace : List PubEvent) : Decidable (monotoneGlobal d trace) := by
  unfold monotoneGlobal; infer_instance

/-- Alternative publication semantics in which each publish is one single
atomic compare-and-update (fetch-max) event, as the specification's ordering
guarantee describes: the event of thread `tid` replaces the global value by
`max global (d tid)` in one step. -/
def fetchMaxAfter (d : Nat → Nat) (trace : List Nat) (n : Nat) : Nat :=
  (trace.take n).foldl (fun g tid => max g (d tid)) 0

/-- Model of `ore_api::state::Bus`: its pool id and current rewards. -/
structure Bus where
  id : Nat
  rewards : Nat
  deriving DecidableEq, Repr

/-- Number of reward buses (`ore_api::consts::BUS_COUNT`). -/
def BUS_COUNT : Nat := 8

/-- The fixed table of bus addresses (`ore_api::consts::BUS_ADDRESSES`).
The pubkeys are opaque distinct constants; they are abstracted by their
index in the table. -/
def BUS_ADDRESSES : List Nat := List.range BUS_COUNT

/-- The scan of `find_bus` over the fetched accounts (`src/mine.rs:292-301`):
missing accounts and accounts that fail `Bus::try_from_bytes` are skipped; a
bus whose `rewards` strictly exceeds the running `top_bus_balance` becomes
the new top, via the index expression `BUS_ADDRESSES[bus.id as usize]`.
`none` models the panic of that indexing when `bus.id ≥ BUS_COUNT`. -/
def busScan : List (Option Bus) → Nat → Nat → Option Nat
  | [], _, top_bus => some top_bus
  | none :: rest, top_bus_balance, top_bus => busScan rest top_bus_balance top_bus
  | some bus :: rest, top_bus_balance, top_bus =>
    if bus.rewards > top_bus_balance then
      match BUS_ADDRESSES.get? bus.id with
      | some addr => busScan rest bus.rewards addr
      | none => none
    else busScan rest top_bus_balance top_bus

/-- Embedding of `Miner::find_bus` (`src/mine.rs:287-308`).  `readResult` is
the outcome of the batched `get_multiple_accounts` call (`none` = the whole
read failed); `draw` is the sampled value of
`rand::thread_rng().gen_range(0..BUS_COUNT)`, in range by the contract of
`gen_range`.  On success the scan starts from balance `0` and
`BUS_ADDRESSES[0]`; on failure the random bus is returned. -/
def find_bus (readResult : Option (List (Option Bus))) (draw : Fin BUS_COUNT) : Option Nat :=
  match readResult with
  | some accounts => busScan accounts 0 (BUS_ADDRESSES.get ⟨0, by decide⟩)
  | none => BUS_ADDRESSES.get? draw.val

/-- Written from the specification's words, for comparison with `find_bus`:
iterate all successfully read pools, track the maximum `rewards` value seen,
and return the pool achieving that maximum, the first-seen pool winning on
exact ties. -/
def specTopBus : List Bus → Option Bus
  | [] => none
  | bus :: rest =>
    match specTopBus rest with
    | none => some bus
    | some c => if c.rewards > bus.rewards then some c else some bus

/-- Maximum retry attempts for submission (`src/mine.rs:30`). -/
def MAX_RETRIES : Nat := 3

/-- Observable outcome of the submission retry loop (`src/mine.rs:91-114`):
how many times `send_and_confirm` was called, the attempt numbers of the
logged error lines, and whether the loop ended by halting the whole mining
process (`return`, line 110) rather than completing the round. -/
structure RetryOutcome where
  calls : Nat
  loggedAttempts : List Nat
  halted : Bool
  deriving DecidableEq, Repr

/-- The body of `while attempts < MAX_RETRIES` (`src/mine.rs:92-114`).
`submit k` is the outcome of the `(k+1)`-th `send_and_confirm` call.  On
`Ok` the loop breaks (round completes); on `Err` the attempt counter is
incremented and logged, and reaching `MAX_RETRIES` halts the process. -/
def submitLoopGo (submit : Nat → Bool) (attempts calls : Nat) (logged : List Nat) :
    RetryOutcome :=
  if _h : attempts < MAX_RETRIES then
    if submit calls then
      { calls := calls + 1, loggedAttempts := logged, halted := false }
    else
      if MAX_RETRIES ≤ attempts + 1 then
        { calls := calls + 1, loggedAttempts := logged ++ [attempts + 1], halted := true }
      else
        submitLoopGo submit (attempts + 1) (calls + 1) (logged ++ [attempts + 1])
  else
    { calls := calls, loggedAttempts := logged, halted := false }
termination_by MAX_RETRIES - attempts
decreasing_by omega

/-- The submission retry mechanism of one round (`src/mine.rs:91-114`),
starting from `attempts = 0`. -/
def submitRetry (submit : Nat → Bool) : RetryOutcome :=
  submitLoopGo submit 0 0 []

/-- Candidate difficulties of two worker threads used to exhibit an
interleaving of the publication protocol: thread 0 holds difficulty 5,
every other thread holds difficulty 10. -/
def cexDiff : Nat → Nat := fun t => if t = 0 then 5 else 10

/-- An interleaving of the two threads' publish sequences: both threads
evaluate the comparison of `src/mine.rs:169` (a `load`) while the global
best is still 0, thread 1 stores 10, then thread 0 stores 5. -/
def cexTrace : List PubEvent := [.load 0, .load 1, .store 1, .store 0]

/-! ## Helper lemmas -/

theorem joinReduce_foldl_difficulty (rs : List (Nat × Nat × Hash)) :
    ∀ acc : Nat × Nat × Hash,
      (rs.foldl (fun acc r => if r.2.1 > acc.2.1 then r else acc) acc).2.1 =
        (rs.map (fun r => r.2.1)).foldl max acc.2.1 := by
  induction rs with
  | nil => intro acc; rfl
  | cons r rest ih =>
    intro acc
    simp only [List.foldl_cons, List.map_cons]
    rw [ih]
    congr 1
    by_cases h : r.2.1 > acc.2.1
    · rw [if_pos h]; omega
    · rw [if_neg h]; omega

theorem joinReduce_all_zero (rs : List (Nat × Nat × Hash))
    (h : ∀ r ∈ rs, r.2.1 = 0) : joinReduce rs = (0, 0, hashDefault) := by
  unfold joinReduce
  induction rs with
  | nil => rfl
  | cons r rest ih =>
    have hr : r.2.1 = 0 := h r (by simp)
    simp only [List.foldl_cons]
    rw [if_neg (by simp [hr])]
    exact ih fun x hx => h x (by simp [hx])

theorem applyAttempt_nonce (s : WorkerState) (env : LoopEnv) :
    (applyAttempt s env).1.nonce = s.nonce := by
  unfold applyAttempt
  rcases env.attempt with ⟨hx, d⟩ | _
  · dsimp only
    split <;> rfl
  · rfl

theorem workerStep_break_iff (cutoff_time min_difficulty : Nat) (s : WorkerState)
    (env : LoopEnv) :
    (workerStep cutoff_time min_difficulty s env).2.2 = true ↔
      (s.nonce % 100 = 0 ∧ cutoff_time ≤ env.elapsed ∧ min_difficulty ≤ env.globalAtCheck) := by
  unfold workerStep
  rw [applyAttempt_nonce]
  by_cases hel : cutoff_time ≤ env.elapsed <;>
    by_cases hgc : min_difficulty ≤ env.globalAtCheck <;>
      by_cases hnz : s.nonce % 100 = 0 <;>
        simp [hel, hgc, hnz]

theorem workerStep_no_break_nonce (cutoff_time min_difficulty : Nat) (s : WorkerState)
    (env : LoopEnv)
    (h : (workerStep cutoff_time min_difficulty s env).2.2 = false) :
    (workerStep cutoff_time min_difficulty s env).1.nonce = (s.nonce + 1) % 2 ^ 64 := by
  unfold workerStep at h ⊢
  split at h
  · cases h
  next hc =>
    rw [if_neg hc]
    simp [applyAttempt_nonce]

theorem workerRun_break_exists (cutoff_time min_difficulty : Nat) :
    ∀ (envs : List LoopEnv) (s : WorkerState),
      (workerRun cutoff_time min_difficulty s envs).2 = true →
      ∃ e ∈ envs, cutoff_time ≤ e.elapsed ∧ min_difficulty ≤ e.globalAtCheck := by
  intro envs
  induction envs with
  | nil => intro s h; cases h
  | cons e rest ih =>
    intro s h
    unfold workerRun at h
    by_cases hb : (workerStep cutoff_time min_difficulty s e).2.2 = true
    · rcases (workerStep_break_iff cutoff_time min_difficulty s e).1 hb with ⟨_, h1, h2⟩
      exact ⟨e, by simp, h1, h2⟩
    · rw [if_neg hb] at h
      rcases ih _ h with ⟨e2, he2, hh⟩
      exact ⟨e2, by simp [he2], hh⟩

/-! ## Claim theorems -/

/-- C1: for every challenge and positive worker count, the post-join
reduction of `find_hash_par` yields the triple whose difficulty is the
maximum of all joined workers' local-best difficulties, and yields the
zero/default candidate `(0, 0, Hash::default())` when no worker improves on
the initial state (all local bests are zero). -/
theorem C1_join_reduction (results : List (Nat × Nat × Hash)) :
    (joinReduce results).2.1 = (results.map (fun r => r.2.1)).foldl max 0 ∧
    ((∀ r ∈ results, r.2.1 = 0) → joinReduce results = (0, 0, hashDefault)) :=
  ⟨joinReduce_foldl_difficulty results (0, 0, hashDefault), joinReduce_all_zero results⟩

/-- Witness for C1 at a concrete input: two workers, none of which improved
on the initial state. -/
theorem C1_join_reduction_witness :
    joinReduce [(5, 0, hashDefault), (7, 0, hashDefault)] = (0, 0, hashDefault) :=
  (C1_join_reduction [(5, 0, hashDefault), (7, 0, hashDefault)]).2 (by decide)

/-- C3: a worker's loop breaks at an iteration exactly when the iteration is
a sampling-stride check (`nonce % 100 == 0`) with elapsed time at least the
cutoff and global best difficulty at least `min_difficulty`; consequently a
worker that stops saw, at some iteration, elapsed time ≥ cutoff and global
best ≥ `min_difficulty` — it never stops before the deadline, and past the
deadline it keeps running while the global best is below the threshold. -/
theorem C3_worker_termination (cutoff_time min_difficulty : Nat) (s : WorkerState)
    (env : LoopEnv) (envs : List LoopEnv) :
    ((workerStep cutoff_time min_difficulty s env).2.2 = true ↔
      (s.nonce % 100 = 0 ∧ cutoff_time ≤ env.elapsed ∧
        min_difficulty ≤ env.globalAtCheck)) ∧
    ((workerRun cutoff_time min_difficulty s envs).2 = true →
      ∃ e ∈ envs, cutoff_time ≤ e.elapsed ∧ min_difficulty ≤ e.globalAtCheck) :=
  ⟨workerStep_break_iff cutoff_time min_difficulty s env,
    workerRun_break_exists cutoff_time min_difficulty envs s⟩

/-- Witness for C3 at a concrete run that stops at its first iteration. -/
theorem C3_worker_termination_witness :
    ∃ e ∈ [(⟨.err, 0, 0, 0⟩ : LoopEnv)],
      0 ≤ e.elapsed ∧ 0 ≤ e.globalAtCheck :=
  (C3_worker_termination 0 0 (initWorkerState 1 0) ⟨.err, 0, 0, 0⟩
    [⟨.err, 0, 0, 0⟩]).2 (by decide)

/-- C9: for worker count `cores > 0` and worker index `id < cores`, the
starting nonce is exactly `⌊u64::MAX / cores⌋ * id` (the saturating multiply
never clamps for `id < cores`); every non-breaking iteration advances the
nonce by exactly 1 (wrapping); and a failed hashing attempt is silently
skipped: it changes no local-best field, publishes nothing, and the nonce
still advances. -/
theorem C9_partition_and_nonce_advance (cores id cutoff_time min_difficulty : Nat)
    (s : WorkerState) (env : LoopEnv) (_h0 : 0 < cores) (hid : id < cores) :
    startNonce cores id = u64Max / cores * id ∧
    ((workerStep cutoff_time min_difficulty s env).2.2 = false →
      (workerStep cutoff_time min_difficulty s env).1.nonce = (s.nonce + 1) % 2 ^ 64) ∧
    (env.attempt = .err →
      (workerStep cutoff_time min_difficulty s env).1.bestNonce = s.bestNonce ∧
      (workerStep cutoff_time min_difficulty s env).1.bestDifficulty = s.bestDifficulty ∧
      (workerStep cutoff_time min_difficulty s env).1.bestHash = s.bestHash ∧
      (workerStep cutoff_time min_difficulty s env).2.1 = none) := by
  refine ⟨?_, workerStep_no_break_nonce cutoff_time min_difficulty s env, ?_⟩
  · have hle : u64Max / cores * id ≤ u64Max :=
      le_trans (Nat.mul_le_mul_left _ (le_of_lt hid)) (Nat.div_mul_le_self _ _)
    exact min_eq_left hle
  · intro herr
    have happ : applyAttempt s env = (s, none) := by
      unfold applyAttempt; rw [herr]
    unfold workerStep
    rw [happ]
    split <;> simp

/-- Witness for C9 at worker 1 of 2. -/
theorem C9_partition_witness : startNonce 2 1 = u64Max / 2 * 1 :=
  (C9_partition_and_nonce_advance 2 1 0 0 (initWorkerState 2 1) ⟨.err, 0, 0, 0⟩
    (by decide) (by decide)).1

/-- C4: submission is attempted at most `MAX_RETRIES = 3` times per round; a
submit function that fails twice then succeeds completes the round after
exactly 3 calls with 2 logged attempts and no halt; a submit function that
always fails produces exactly the attempt-numbered logs 1, 2, 3 and halts
the whole process. -/
theorem C4_submission_retry (submit : Nat → Bool) :
    (submitRetry submit).calls ≤ MAX_RETRIES ∧
    (submit 0 = false → submit 1 = false → submit 2 = true →
      submitRetry submit = { calls := 3, loggedAttempts := [1, 2], halted := false }) ∧
    ((∀ k, submit k = false) →
      submitRetry submit = { calls := 3, loggedAttempts := [1, 2, 3], halted := true }) := by
  refine ⟨?_, ?_, ?_⟩
  · by_cases h0 : submit 0 <;> by_cases h1 : submit 1 <;> by_cases h2 : submit 2 <;>
      simp [submitRetry, submitLoopGo, MAX_RETRIES, h0, h1, h2]
  · intro h0 h1 h2
    simp [submitRetry, submitLoopGo, MAX_RETRIES, h0, h1, h2]
  · intro hall
    simp [submitRetry, submitLoopGo, MAX_RETRIES, hall]

/-- Witness for C4: a submit function failing on calls 0 and 1 and
succeeding on call 2. -/
theorem C4_submission_retry_witness :
    submitRetry (fun k => decide (2 ≤ k)) =
      { calls := 3, loggedAttempts := [1, 2], halted := false } :=
  (C4_submission_retry (fun k => decide (2 ≤ k))).2.1 rfl rfl rfl

/-- C7: the reset instruction is part of the round's instruction list iff
the `should_reset` time condition holds and the random draw
(`gen_range(0..100)`) is 0; whenever it is included the compute budget is
600000 (the base 500000 plus 100000); a failed draw excludes it even when
the time condition holds. -/
theorem C7_reset_inclusion (last_reset_at epochDuration unix_timestamp : Int)
    (draw : Nat) :
    ((buildActions (should_reset last_reset_at epochDuration unix_timestamp)
        draw).resetIncluded = true ↔
      (should_reset last_reset_at epochDuration unix_timestamp = true ∧ draw = 0)) ∧
    ((buildActions (should_reset last_reset_at epochDuration unix_timestamp)
        draw).resetIncluded = true →
      (buildActions (should_reset last_reset_at epochDuration unix_timestamp)
        draw).computeBudget = 600000) ∧
    (draw ≠ 0 →
      (buildActions (should_reset last_reset_at epochDuration unix_timestamp)
        draw).resetIncluded = false) := by
  refine ⟨?_, ?_, ?_⟩
  · simp [buildActions]
  · intro h
    simp only [buildActions, Bool.and_eq_true, beq_iff_eq] at h
    simp [buildActions, h.1, h.2]
  · intro h
    simp [buildActions, h]

/-- Witness for C7: with draw 1 (≠ 0) the reset instruction is excluded. -/
theorem C7_reset_inclusion_witness :
    (buildActions (should_reset 0 60 1000) 1).resetIncluded = false :=
  (C7_reset_inclusion 0 60 1000 1).2.2 (by decide)

/-- C5 (amended): for inputs where no saturation clamp or wrapping cast
takes effect — `buffer_time < 2^63` and the intermediate differences within
the `i64` range — `get_cutoff` returns `max(0, last_hash_at + 60 −
buffer_time − current_time)`; outside that range the saturating/wrapping
arithmetic deviates from the ideal formula. -/
theorem C5_cutoff_formula (last_hash_at : Int) (buffer_time : Nat)
    (unix_timestamp : Int)
    (hbuf : buffer_time < 2 ^ 63)
    (h1 : last_hash_at + 60 ≤ i64Max)
    (h2 : i64Min ≤ last_hash_at + 60 - buffer_time)
    (h3 : i64Min ≤ last_hash_at + 60 - buffer_time - unix_timestamp)
    (h4 : last_hash_at + 60 - buffer_time - unix_timestamp ≤ i64Max) :
    get_cutoff last_hash_at buffer_time unix_timestamp =
      (max (last_hash_at + 60 - buffer_time - unix_timestamp) 0).toNat := by
  simp only [get_cutoff, satAdd, satSub, satI64, u64ToI64, i64Min, i64Max] at *
  omega

/-- Witness for C5 at the spec's example: `last_hash_at = 1000`,
`buffer_time = 5`, `current_time = 1040` gives 15. -/
theorem C5_cutoff_formula_witness : get_cutoff 1000 5 1040 = 15 := by
  rw [C5_cutoff_formula 1000 5 1040 (by norm_num) (by norm_num [i64Max])
    (by norm_num [i64Min]) (by norm_num [i64Min]) (by norm_num [i64Max])]
  decide

set_option maxRecDepth 10000 in
/-- Counterexample for C5 as stated: at `last_hash_at = 0`,
`buffer_time = 2^63`, `current_time = 0`, the ideal formula
`max(0, last_hash_at + 60 − buffer_time − current_time)` is 0, but
`get_cutoff` returns `2^63 − 1`: the cast `buffer_time as i64` wraps to
`−2^63` and the saturating subtraction clamps at `i64::MAX`. -/
theorem C5_cutoff_counterexample :
    get_cutoff 0 (2 ^ 63) 0 = 2 ^ 63 - 1 ∧
    (max ((0 : Int) + 60 - 2 ^ 63 - 0) 0).toNat = 0 := by
  constructor
  · decide
  · decide

/-- Counterexample for C2 as stated: an interleaving of two workers under
the code's publication protocol (separate relaxed `load` and `store`,
`src/mine.rs:169-171`) in which the shared best difficulty decreases.  With
thread 0 holding difficulty 5 and thread 1 holding 10, the interleaving
`load 0, load 1, store 1, store 0` leaves the global best at 10 after the
fourth event's predecessor and at 5 after the fourth event, so a reader
sampling at those two points observes a decrease: the update is not an
atomic compare-and-update. -/
theorem C2_monotonicity_counterexample :
    globalAfter cexDiff cexTrace 3 = 10 ∧ globalAfter cexDiff cexTrace 4 = 5 ∧
    ¬ monotoneGlobal cexDiff cexTrace := by
  decide

theorem le_foldl_fetchMax (d : Nat → Nat) :
    ∀ (l : List Nat) (g : Nat), g ≤ l.foldl (fun g tid => max g (d tid)) g := by
  intro l
  induction l with
  | nil => intro g; exact le_refl g
  | cons t rest ih =>
    intro g
    simp only [List.foldl_cons]
    exact le_trans (le_max_left g (d t)) (ih (max g (d t)))

/-- C2 (amended): when each publish is one atomic compare-and-update
(fetch-max) event — the semantics the claim ascribes to the code — the
global best difficulty is monotonically non-decreasing across every
interleaving: any two sample points `i ≤ j` observe non-decreasing values.
The code's separate load-then-store publish does not guarantee this (see
the counterexample). -/
theorem C2_fetchMax_monotone (d : Nat → Nat) (trace : List Nat) (i j : Nat)
    (hij : i ≤ j) : fetchMaxAfter d trace i ≤ fetchMaxAfter d trace j := by
  unfold fetchMaxAfter
  have hsplit : trace.take j = trace.take i ++ (trace.take j).drop i := by
    conv_lhs => rw [← List.take_append_drop i (trace.take j)]
    rw [List.take_take, min_eq_left hij]
  rw [hsplit, List.foldl_append]
  exact le_foldl_fetchMax d _ _

/-- Witness for C2 (amended) at a concrete interleaving and sample points. -/
theorem C2_fetchMax_monotone_witness :
    fetchMaxAfter (fun _ => 3) [0, 1] 1 ≤ fetchMaxAfter (fun _ => 3) [0, 1] 2 :=
  C2_fetchMax_monotone (fun _ => 3) [0, 1] 1 2 (by decide)

theorem specTopBus_mem : ∀ (l : List Bus) (b : Bus), specTopBus l = some b → b ∈ l := by
  intro l
  induction l with
  | nil => intro b h; cases h
  | cons a rest ih =>
    intro b h
    simp only [specTopBus] at h
    rcases hs : specTopBus rest with _ | c <;> rw [hs] at h <;> dsimp only at h
    · cases h; simp
    · by_cases hc : c.rewards > a.rewards
      · rw [if_pos hc] at h; cases h; exact List.mem_cons_of_mem _ (ih _ hs)
      · rw [if_neg hc] at h; cases h; simp

theorem busScan_cons_some (b : Bus) (rest : List (Option Bus)) (bal bus : Nat)
    (hb : b.id < BUS_COUNT) :
    busScan (some b :: rest) bal bus =
      if b.rewards > bal then busScan rest b.rewards b.id else busScan rest bal bus := by
  have hget : BUS_ADDRESSES.get? b.id = some b.id := List.get?_range hb
  simp only [busScan, hget]

theorem specTopBus_cons_none (b : Bus) (rest : List Bus)
    (hs : specTopBus rest = none) : specTopBus (b :: rest) = some b := by
  simp only [specTopBus, hs]

theorem specTopBus_cons_some (b c : Bus) (rest : List Bus)
    (hs : specTopBus rest = some c) :
    specTopBus (b :: rest) = if c.rewards > b.rewards then some c else some b := by
  simp only [specTopBus, hs]

theorem busScan_spec :
    ∀ (l : List (Option Bus)) (top_bus_balance top_bus : Nat),
      (∀ c ∈ l.filterMap (fun a => a), c.id < BUS_COUNT) →
      busScan l top_bus_balance top_bus =
        some (((specTopBus (l.filterMap (fun a => a))).map
          (fun c => if c.rewards > top_bus_balance then c.id else top_bus)).getD
            top_bus) := by
  intro l
  induction l with
  | nil => intro bal bus _; rfl
  | cons a rest ih =>
    intro bal bus h
    cases a with
    | none =>
      simp only [List.filterMap_cons] at h ⊢
      simp only [busScan]
      exact ih bal bus h
    | some b =>
      simp only [List.filterMap_cons] at h ⊢
      have hb : b.id < BUS_COUNT := h b (by simp)
      have hrest : ∀ c ∈ rest.filterMap (fun a => a), c.id < BUS_COUNT :=
        fun c hc => h c (by simp [hc])
      rw [busScan_cons_some b rest bal bus hb]
      rcases hs : specTopBus (rest.filterMap (fun a => a)) with _ | c
      · rw [specTopBus_cons_none b _ hs]
        by_cases hba : b.rewards > bal
        · rw [if_pos hba, ih b.rewards b.id hrest, hs]
          simp only [Option.map_none', Option.getD_none, Option.map_some', Option.getD_some]
          rw [if_pos hba]
        · rw [if_neg hba, ih bal bus hrest, hs]
          simp only [Option.map_none', Option.getD_none, Option.map_some', Option.getD_some]
          rw [if_neg hba]
      · rw [specTopBus_cons_some b c _ hs]
        by_cases hba : b.rewards > bal
        · rw [if_pos hba, ih b.rewards b.id hrest, hs]
          simp only [Option.map_some', Option.getD_some]
          by_cases hcb : c.rewards > b.rewards
          · rw [if_pos hcb, if_pos hcb]
            simp only [Option.map_some', Option.getD_some]
            congr 1
            split_ifs <;> omega
          · rw [if_neg hcb, if_neg hcb]
            simp only [Option.map_some', Option.getD_some]
            congr 1
            split_ifs <;> omega
        · rw [if_neg hba, ih bal bus hrest, hs]
          simp only [Option.map_some', Option.getD_some]
          by_cases hcb : c.rewards > b.rewards
          · rw [if_pos hcb]
            simp only [Option.map_some', Option.getD_some]
          · rw [if_neg hcb]
            simp only [Option.map_some', Option.getD_some]
            congr 1
            split_ifs <;> omega

/-- Counterexample for C6 as stated: a successful read yielding the single
pool `{id: 1, rewards: 0}`.  The maximum rewards value seen is 0, achieved
first by the pool with id 1, so the claim predicts the identifier
`BUS_ADDRESSES[1]`; but no pool beats the initial `top_bus_balance = 0`
(the comparison is strict), so `find_bus` returns the initial
`BUS_ADDRESSES[0]`. -/
theorem C6_bus_selection_counterexample :
    find_bus (some [some ⟨1, 0⟩]) ⟨0, by decide⟩ = some 0 ∧
    specTopBus [⟨1, 0⟩] = some ⟨1, 0⟩ ∧
    BUS_ADDRESSES.get? 1 = some 1 ∧ (0 : Nat) ≠ 1 := by
  refine ⟨rfl, rfl, rfl, by decide⟩

/-- C6 (amended): when the batched read succeeds and some readable pool has
positive rewards, `find_bus` returns the address of the pool with the
maximum rewards value, the first-seen pool winning on exact ties
(`specTopBus`, written from the specification); when every readable pool
reports zero rewards it returns the initial address `BUS_ADDRESSES[0]`
regardless of pool ids (see the counterexample).  The example
`[{id:0,rewards:5}, {id:1,rewards:9}, {id:2,rewards:2}]` selects id 1, and
a failed batched read returns the randomly drawn member of the fixed
address table without crashing. -/
theorem C6_bus_selection (accounts : List (Option Bus)) (draw : Fin BUS_COUNT)
    (b : Bus)
    (hids : ∀ c ∈ accounts.filterMap (fun a => a), c.id < BUS_COUNT)
    (htop : specTopBus (accounts.filterMap (fun a => a)) = some b)
    (hpos : 0 < b.rewards) :
    find_bus (some accounts) draw = some b.id ∧
    find_bus (some [some ⟨0, 5⟩, some ⟨1, 9⟩, some ⟨2, 2⟩]) draw = some 1 ∧
    find_bus none draw = some draw.val ∧ draw.val ∈ BUS_ADDRESSES := by
  refine ⟨?_, rfl, ?_, ?_⟩
  · show busScan accounts 0 (BUS_ADDRESSES.get ⟨0, by decide⟩) = some b.id
    rw [busScan_spec accounts 0 _ hids, htop]
    simp only [Option.map_some', Option.getD_some]
    rw [if_pos hpos]
  · show BUS_ADDRESSES.get? draw.val = some draw.val
    exact List.get?_range draw.isLt
  · exact List.mem_range.mpr draw.isLt

/-- Witness for C6 (amended) at the spec's example pools and a concrete
draw. -/
theorem C6_bus_selection_witness :
    find_bus (some [some ⟨0, 5⟩, some ⟨1, 9⟩, some ⟨2, 2⟩]) ⟨4, by decide⟩ = some 1 :=
  (C6_bus_selection [some ⟨0, 5⟩, some ⟨1, 9⟩, some ⟨2, 2⟩] ⟨4, by decide⟩ ⟨1, 9⟩
    (by decide) rfl (by decide)).1

/-- C10: on a successful batched read, the scan of `find_bus` indexes
`BUS_ADDRESSES` by each improving bus's self-reported `id`, and this
never panics provided every successfully deserialized bus has
`id < BUS_COUNT`; the random-fallback index, drawn from `0..BUS_COUNT`,
is always in bounds. -/
theorem C10_bus_index_safety (accounts : List (Option Bus)) (draw : Fin BUS_COUNT)
    (hids : ∀ c ∈ accounts.filterMap (fun a => a), c.id < BUS_COUNT) :
    (find_bus (some accounts) draw).isSome = true ∧
    (find_bus none draw).isSome = true := by
  constructor
  · show (busScan accounts 0 (BUS_ADDRESSES.get ⟨0, by decide⟩)).isSome = true
    rw [busScan_spec accounts 0 _ hids]
    rfl
  · show (BUS_ADDRESSES.get? draw.val).isSome = true
    rw [show BUS_ADDRESSES.get? draw.val = some draw.val from List.get?_range draw.isLt]
    rfl

/-- Witness for C10 at a concrete account list with in-range ids. -/
theorem C10_bus_index_safety_witness :
    (find_bus (some [some ⟨7, 3⟩, none, some ⟨2, 11⟩]) ⟨5, by decide⟩).isSome = true :=
  (C10_bus_index_safety [some ⟨7, 3⟩, none, some ⟨2, 11⟩] ⟨5, by decide⟩ (by decide)).1

theorem workerJob_noop (cutoff_time min_difficulty id : Nat) (envs : List LoopEnv) :
    workerJob 0 cutoff_time min_difficulty id envs = some (0, 0, hashDefault) := by
  unfold workerJob
  rw [if_pos (Nat.zero_le id)]

theorem filterMap_const_some (x : Nat × Nat × Hash) :
    ∀ l : List Nat, (l.map fun _ => some x).filterMap (fun r => r) = l.map fun _ => x := by
  intro l
  induction l with
  | nil => rfl
  | cons a rest ih => simp only [List.map_cons, List.filterMap_cons, ih]

/-- C8: with a requested worker count of 0, every spawned worker is a no-op
and the engine still terminates, producing exactly the single default
`Solution` (digest of `Hash::default()`, nonce 0); with a requested worker
count exceeding the available processing units, the engine still joins all
workers and produces a valid result, provided each active worker's loop
reaches its termination condition. -/
theorem C8_degenerate_worker_counts (coreIds : List Nat)
    (cutoff_time min_difficulty cores : Nat) (envs : Nat → List LoopEnv)
    (_hgt : coreIds.length < cores)
    (hterm : ∀ id ∈ coreIds, id < cores →
      (workerRun cutoff_time min_difficulty (initWorkerState cores id) (envs id)).2 = true) :
    find_hash_par coreIds 0 cutoff_time min_difficulty envs = some ⟨hashDefault.d, 0⟩ ∧
    (find_hash_par coreIds cores cutoff_time min_difficulty envs).isSome = true := by
  constructor
  · unfold find_hash_par
    have hmap : (coreIds.map fun id => workerJob 0 cutoff_time min_difficulty id (envs id))
        = coreIds.map (fun _ => some (0, 0, hashDefault)) :=
      List.map_congr_left fun id _ => workerJob_noop cutoff_time min_difficulty id (envs id)
    rw [hmap]
    have hall : ((coreIds.map (fun _ => some ((0 : Nat), (0 : Nat), hashDefault))).all
        Option.isSome) = true := by
      simp [List.all_eq_true]
    rw [if_pos hall, filterMap_const_some]
    rw [joinReduce_all_zero _ (by simp)]
  · unfold find_hash_par
    have hall : ((coreIds.map fun id =>
        workerJob cores cutoff_time min_difficulty id (envs id)).all Option.isSome) = true := by
      simp only [List.all_eq_true, List.mem_map]
      rintro r ⟨id, hid, rfl⟩
      unfold workerJob
      by_cases hc : cores ≤ id
      · rw [if_pos hc]; rfl
      · rw [if_neg hc, if_pos (hterm id hid (by omega))]; rfl
    rw [if_pos hall]
    rfl

/-- Witness for C8: one available core, two requested workers, the active
worker stopping at its first stride check. -/
theorem C8_degenerate_worker_counts_witness :
    (find_hash_par [0] 2 0 0 (fun _ => [⟨.err, 0, 0, 0⟩])).isSome = true :=
  (C8_degenerate_worker_counts [0] 0 0 2 (fun _ => [⟨.err, 0, 0, 0⟩])
    (by decide) (by decide)).2

end OreMine
